import Mathlib

/-!
# yesno_bets — shallow embedding and verification

Shallow embedding of the `yesno_bets` Anchor program
(`src/programs/yesno_bets/programs/yesno_bets/src/lib.rs`) and proofs about
its fee, cap, resolution and payout arithmetic.

Machine integers are modelled as `Nat` with explicit saturation / checking /
truncation exactly where the Rust source has it:
* `u64::saturating_mul` / `saturating_add` become `min (· * ·) U64_MAX` etc.;
* `u128::checked_mul` / `checked_add` become `Option Nat` guarded by
  `U128_MAX`;
* the narrowing `new_total as u64` becomes `% 2 ^ 64`;
* `u64::try_from` on a `u128` becomes an `Option` guarded by `U64_MAX`.

Solana/Anchor transaction semantics: when an instruction returns an error the
runtime discards every account mutation made during the instruction, so an
instruction is observably atomic.  Each instruction is therefore embedded as a
pure function `inputs → Except ErrorCode outputs`: the `.error` case carries
no state, meaning the persistent state is unchanged.  Pubkeys are abstracted
as `Nat` identifiers (their only role in the embedded logic is equality
tests); the SPL token transfers are external collaborators, so an instruction
that moves value returns the transferred amount alongside the updated
records.
-/

namespace YesnoBets

/-- `u64::MAX`. -/
def U64_MAX : Nat := 2 ^ 64 - 1

/-- `u128::MAX`. -/
def U128_MAX : Nat := 2 ^ 128 - 1

/-- `FEE_BPS: u64 = 300` (3%). -/
def FEE_BPS : Nat := 300

/-- `BPS_DENOM: u64 = 10_000` (100%). -/
def BPS_DENOM : Nat := 10000

/-- Abstract identifier standing for the fixed base58 `OWNER` pubkey constant
(`owner_pubkey()`); its concrete value never enters the program logic, only
equality with it does. -/
def OWNER : Nat := 0

/-- `u64::saturating_mul`. -/
def satMulU64 (a b : Nat) : Nat := min (a * b) U64_MAX

/-- `u64::saturating_add`. -/
def satAddU64 (a b : Nat) : Nat := min (a + b) U64_MAX

/-- `u128::checked_mul` (operands already `≤ U128_MAX`). -/
def checkedMulU128 (a b : Nat) : Option Nat :=
  if a * b ≤ U128_MAX then some (a * b) else none

/-- `u128::checked_add` (operands already `≤ U128_MAX`). -/
def checkedAddU128 (a b : Nat) : Option Nat :=
  if a + b ≤ U128_MAX then some (a + b) else none

/-- `u64::try_from` applied to a `u128` value. -/
def u64TryFrom (n : Nat) : Option Nat :=
  if n ≤ U64_MAX then some n else none

/-- The `Outcome` enum (`#[repr(u8)]`). -/
inductive Outcome
  | Unset
  | Yes
  | No
  | Void
deriving DecidableEq, Repr

/-- `Outcome as u8`: the stored discriminant. -/
def Outcome.toU8 : Outcome → Nat
  | .Unset => 0
  | .Yes => 1
  | .No => 2
  | .Void => 3

/-- The program's `ErrorCode` enum. -/
inductive ErrorCode
  | Unauthorized
  | BettingClosed
  | AlreadyResolved
  | MarketResolved
  | WrongMint
  | BetExceedsLimit
  | Overflow
  | NotResolved
  | NoPayout
  | AlreadyClaimed
  | WrongMarket
  | CannotSwitchSide
  | InvalidAmount
  | NoFees
  | InvalidCutoff
  | TooEarly
  | InvalidOutcomeArg
deriving DecidableEq, Repr

/-- The `Market` account.  `key` is the account's own address (used as
`m.key()` in the source); pubkey-valued fields are `Nat` identifiers. -/
structure Market where
  key : Nat
  creator : Nat
  bet_mint : Nat
  vault : Nat
  vault_authority : Nat
  cutoff_ts : Int
  resolved : Bool
  winning_outcome : Nat
  total_yes : Nat
  total_no : Nat
  fees_accrued : Nat
deriving DecidableEq, Repr

/-- The `Position` account. -/
structure Position where
  owner : Nat
  market : Nat
  outcome : Nat
  claimed : Bool
  amount : Nat
deriving DecidableEq, Repr

/-- `create_market`: owner-only; initializes all pools, fees, and the
resolution state.  `key`, `mintKey`, `vaultKey`, `vaultAuthKey` are the
addresses of the accounts the environment supplies. -/
def create_market (caller key mintKey vaultKey vaultAuthKey : Nat)
    (cutoff_ts : Int) : Except ErrorCode Market :=
  if caller = OWNER then
    .ok { key := key
          creator := caller
          bet_mint := mintKey
          vault := vaultKey
          vault_authority := vaultAuthKey
          cutoff_ts := cutoff_ts
          resolved := false
          winning_outcome := Outcome.Unset.toU8
          total_yes := 0
          total_no := 0
          fees_accrued := 0 }
  else .error .Unauthorized

/-- `update_cutoff`: owner-only; requires unresolved, current time before the
existing cutoff, and the new cutoff strictly after the current time. -/
def update_cutoff (caller : Nat) (now : Int) (m : Market)
    (new_cutoff_ts : Int) : Except ErrorCode Market :=
  if caller = OWNER then
    if m.resolved then .error .AlreadyResolved
    else if now < m.cutoff_ts then
      if new_cutoff_ts > now then
        .ok { m with cutoff_ts := new_cutoff_ts }
      else .error .InvalidCutoff
    else .error .BettingClosed
  else .error .Unauthorized

/-- `let fee = amount.saturating_mul(FEE_BPS) / BPS_DENOM;` -/
def fee_of (amount : Nat) : Nat := satMulU64 amount FEE_BPS / BPS_DENOM

/-- `let net = amount.saturating_sub(fee);` (`Nat` subtraction is already
saturating). -/
def net_of (amount : Nat) : Nat := amount - fee_of amount

/-- The cumulative-cap block of `place_bet` (lines 96–103): recompute the cap
`100 * 10^decimals` and the prospective total in checked `u128` arithmetic,
and reject totals beyond the cap.  Returns the new cumulative total. -/
def cap_check (decimals pAmount net : Nat) : Except ErrorCode Nat :=
  match checkedMulU128 100 (10 ^ decimals) with
  | none => .error .Overflow
  | some max_total =>
    match checkedAddU128 pAmount net with
    | none => .error .Overflow
    | some new_total =>
      if new_total ≤ max_total then .ok new_total
      else .error .BetExceedsLimit

/-- `place_bet`: fee taken now, position holds the net amount, the gross
amount is transferred into the vault (returned as the third component).
`decimals` is `bet_mint.decimals`; a position that has never been written has
`amount = 0` (Anchor `init_if_needed` zero-initializes), which is exactly the
source's freshness test `p.amount == 0`. -/
def place_bet (now : Int) (decimals : Nat) (bettorKey mintKey : Nat)
    (m : Market) (p : Position) (outcome : Outcome) (amount : Nat) :
    Except ErrorCode (Market × Position × Nat) :=
  if 0 < amount then
    if m.resolved then .error .MarketResolved
    else if now < m.cutoff_ts then
      if m.bet_mint = mintKey then
        let fee := fee_of amount
        let net := net_of amount
        -- token::transfer of the gross `amount` from bettor_ata to vault
        -- (external collaborator; the gross figure is returned below)
        let p0 : Position :=
          if p.amount = 0 then
            { owner := bettorKey, market := m.key, outcome := outcome.toU8,
              claimed := false, amount := p.amount }
          else p
        if p.amount = 0 ∨ p.outcome = outcome.toU8 then
          -- initialization does not touch `amount`, so the source's
          -- `p.amount` at line 100 equals the input `p.amount`
          match cap_check decimals p.amount net with
          | .error e => .error e
          | .ok new_total =>
            let p1 : Position := { p0 with amount := new_total % 2 ^ 64 }
            match outcome with
            | Outcome.Yes =>
              .ok ({ m with total_yes := satAddU64 m.total_yes net,
                            fees_accrued := satAddU64 m.fees_accrued fee },
                   p1, amount)
            | Outcome.No =>
              .ok ({ m with total_no := satAddU64 m.total_no net,
                            fees_accrued := satAddU64 m.fees_accrued fee },
                   p1, amount)
            | _ => .error .InvalidOutcomeArg
        else .error .CannotSwitchSide
      else .error .WrongMint
    else .error .BettingClosed
  else .error .InvalidAmount

/-- `resolve_market`: owner-only, unresolved, past cutoff; auto-voids when a
pool is empty, otherwise only `Yes`/`No` are accepted. -/
def resolve_market (caller : Nat) (now : Int) (m : Market)
    (winning_outcome : Outcome) : Except ErrorCode Market :=
  if caller = OWNER then
    if m.resolved then .error .AlreadyResolved
    else if now ≥ m.cutoff_ts then
      if m.total_yes = 0 ∨ m.total_no = 0 then
        .ok { m with resolved := true, winning_outcome := Outcome.Void.toU8 }
      else
        match winning_outcome with
        | Outcome.Yes | Outcome.No =>
          .ok { m with resolved := true,
                       winning_outcome := winning_outcome.toU8 }
        | _ => .error .InvalidOutcomeArg
    else .error .TooEarly
  else .error .Unauthorized

/-- The pool of the side recorded as winning
(`if m.winning_outcome == Outcome::Yes as u8 { total_yes } else { total_no }`). -/
def winningPool (m : Market) : Nat :=
  if m.winning_outcome = Outcome.Yes.toU8 then m.total_yes else m.total_no

/-- The payout ratio in exact arithmetic:
`floor(total_pool * user_amt / winning_pool)`. -/
def winner_payout (total_pool winning_pool user_amt : Nat) : Nat :=
  total_pool * user_amt / winning_pool

/-- The winner-payout block of `claim_winnings` (lines 166–183): checked
`u128` widening, the `winning_pool > 0` guard, the floor division, and the
narrowing back to `u64`. -/
def payout_calc (total_yes total_no winning_pool user_amt : Nat) :
    Except ErrorCode Nat :=
  match checkedAddU128 total_yes total_no with
  | none => .error .Overflow
  | some total_pool =>
    if 0 < winning_pool then
      match checkedMulU128 total_pool user_amt with
      | none => .error .Overflow
      | some prod =>
        match u64TryFrom (prod / winning_pool) with
        | none => .error .Overflow
        | some q => .ok q
    else .error .NoPayout

/-- `claim_winnings`: winners or void refunds.  The leading owner test is the
Anchor account constraint `position.owner == bettor.key()` (Unauthorized),
which runs before the instruction body; the body's own checks follow in
source order.  On success the position is marked claimed (the account is then
closed to the bettor by the `close = bettor` constraint) and the payout is
transferred from the vault. -/
def claim_winnings (bettorKey mintKey : Nat) (m : Market) (p : Position) :
    Except ErrorCode (Market × Position × Nat) :=
  if p.owner = bettorKey then
    if m.resolved then
      if p.claimed then .error .AlreadyClaimed
      else if p.market = m.key then
        if mintKey = m.bet_mint then
          let payoutE : Except ErrorCode Nat :=
            if m.winning_outcome = Outcome.Void.toU8 then
              -- void ⇒ refund NET (fees were already kept on place_bet)
              if 0 < p.amount then .ok p.amount else .error .NoPayout
            else if p.outcome = m.winning_outcome then
              payout_calc m.total_yes m.total_no (winningPool m) p.amount
            else .error .NoPayout
          match payoutE with
          | .error e => .error e
          | .ok payout => .ok (m, { p with claimed := true }, payout)
        else .error .WrongMint
      else .error .WrongMarket
    else .error .NotResolved
  else .error .Unauthorized

/-- `sweep_fees`: owner-only; transfers the whole accrued fee balance (the
returned amount) and resets it. -/
def sweep_fees (caller : Nat) (m : Market) : Except ErrorCode (Market × Nat) :=
  if caller = OWNER then
    if 0 < m.fees_accrued then
      .ok ({ m with fees_accrued := 0 }, m.fees_accrued)
    else .error .NoFees
  else .error .Unauthorized

/-- Markets reachable by the program's own operations, starting from
`create_market` and closed under the five mutating instructions (each used
only through its success case, since an erroring instruction leaves the
persistent state untouched). -/
inductive Reachable : Market → Prop
  | create (caller key mintKey vaultKey vaultAuthKey : Nat) (cutoff : Int)
      (m : Market) :
      create_market caller key mintKey vaultKey vaultAuthKey cutoff = .ok m →
      Reachable m
  | update (caller : Nat) (now : Int) (m : Market) (t : Int) (m' : Market) :
      Reachable m → update_cutoff caller now m t = .ok m' → Reachable m'
  | bet (now : Int) (decimals bk mk : Nat) (m : Market) (p : Position)
      (o : Outcome) (a : Nat) (m' : Market) (p' : Position) (t : Nat) :
      Reachable m → place_bet now decimals bk mk m p o a = .ok (m', p', t) →
      Reachable m'
  | resolve (caller : Nat) (now : Int) (m : Market) (o : Outcome)
      (m' : Market) :
      Reachable m → resolve_market caller now m o = .ok m' → Reachable m'
  | claim (bk mk : Nat) (m : Market) (p : Position) (m' : Market)
      (p' : Position) (t : Nat) :
      Reachable m → claim_winnings bk mk m p = .ok (m', p', t) → Reachable m'
  | sweep (caller : Nat) (m : Market) (m' : Market) (amt : Nat) :
      Reachable m → sweep_fees caller m = .ok (m', amt) → Reachable m'

/-- The pool-positivity invariant: a market resolved to `Yes` (resp. `No`)
has a nonzero yes-pool (resp. no-pool). -/
def PoolInv (m : Market) : Prop :=
  (m.resolved = true → m.winning_outcome = Outcome.Yes.toU8 →
    0 < m.total_yes) ∧
  (m.resolved = true → m.winning_outcome = Outcome.No.toU8 →
    0 < m.total_no)

/-! ### Concrete instances used by witnesses and counterexamples -/

/-- An open market with empty pools (the state `create_market` produces for
`cutoff_ts = 100` and the account identifiers below). -/
def mOpen : Market :=
  { key := 1, creator := 0, bet_mint := 7, vault := 2, vault_authority := 3,
    cutoff_ts := 100, resolved := false, winning_outcome := 0,
    total_yes := 0, total_no := 0, fees_accrued := 0 }

/-- A never-written (zero-initialized) position account. -/
def pFresh : Position :=
  { owner := 0, market := 0, outcome := 0, claimed := false, amount := 0 }

/-- A market resolved to Yes with `pool_yes = 700`, `pool_no = 300` (the
spec's payout scenario). -/
def mC1 : Market :=
  { mOpen with resolved := true, winning_outcome := 1,
               total_yes := 700, total_no := 300 }

/-- A position with 140 net on Yes in `mC1`. -/
def pC1 : Position :=
  { owner := 11, market := 1, outcome := 1, claimed := false, amount := 140 }

/-- An open market whose yes-pool already sits at `u64::MAX`. -/
def mFull : Market := { mOpen with total_yes := U64_MAX, total_no := 5 }

/-- An open market with `cutoff_ts = 20`. -/
def mCut20 : Market := { mOpen with cutoff_ts := 20 }

/-- A market resolved Void. -/
def mVoid : Market := { mOpen with resolved := true, winning_outcome := 3 }

/-- A position with 500 net recorded in `mVoid` (the spec's refund
scenario). -/
def pVoid : Position :=
  { owner := 11, market := 1, outcome := 1, claimed := false, amount := 500 }

/-- A resolved-Yes market whose total pool `1 + u64::MAX` no longer fits
`u64` after division by the winning pool `1`. -/
def mHuge : Market :=
  { mOpen with resolved := true, winning_outcome := 1,
               total_yes := 1, total_no := U64_MAX }

/-- A 1-unit winning position in `mHuge`. -/
def pHuge : Position :=
  { owner := 11, market := 1, outcome := 1, claimed := false, amount := 1 }

/-- An open market with both pools populated. -/
def mBoth : Market := { mOpen with total_yes := 970, total_no := 500 }

/-- An open market with only the yes side populated. -/
def mOneSided : Market := { mOpen with total_yes := 970 }

/-- `mOpen` after a 1000-unit Yes bet (net 970, fee 30). -/
def mWitYes : Market := { mOpen with total_yes := 970, fees_accrued := 30 }

/-- `mWitYes` after a 1000-unit No bet. -/
def mWitNo : Market :=
  { mOpen with total_yes := 970, total_no := 970, fees_accrued := 60 }

/-- `mWitNo` resolved to Yes. -/
def mWitRes : Market :=
  { mWitNo with resolved := true, winning_outcome := 1 }

/-- The position produced by the witness Yes bet. -/
def pWitYes : Position :=
  { owner := 11, market := 1, outcome := 1, claimed := false, amount := 970 }

/-- The position produced by the witness No bet. -/
def pWitNo : Position :=
  { owner := 12, market := 1, outcome := 2, claimed := false, amount := 970 }

/-! ### Arithmetic helper lemmas -/

lemma fee_of_le (a : Nat) : fee_of a ≤ a := by
  unfold fee_of satMulU64 FEE_BPS BPS_DENOM U64_MAX
  rcases le_or_lt (a * 300) (2 ^ 64 - 1) with h | h
  · rw [min_eq_left h]
    calc a * 300 / 10000 ≤ a * 10000 / 10000 :=
          Nat.div_le_div_right (by omega)
    _ = a := Nat.mul_div_cancel a (by norm_num)
  · rw [min_eq_right h.le]
    have h64 : (2 : Nat) ^ 64 - 1 = 18446744073709551615 := by norm_num
    rw [h64] at h ⊢
    omega

lemma fee_add_net (a : Nat) : fee_of a + net_of a = a := by
  have := fee_of_le a
  unfold net_of
  omega

lemma fee_of_eq_exact (a : Nat) (h : a * FEE_BPS ≤ U64_MAX) :
    fee_of a = a * FEE_BPS / BPS_DENOM := by
  unfold fee_of satMulU64
  rw [min_eq_left h]

lemma div_add_div_le (a b c : Nat) : a / c + b / c ≤ (a + b) / c := by
  rcases Nat.eq_zero_or_pos c with hc | hc
  · simp [hc]
  · rw [Nat.le_div_iff_mul_le hc, Nat.add_mul]
    exact Nat.add_le_add (Nat.div_mul_le_self a c) (Nat.div_mul_le_self b c)

lemma sum_payout_le (T W : Nat) (stakes : List Nat) :
    (stakes.map (fun a => winner_payout T W a)).sum ≤
      winner_payout T W stakes.sum := by
  induction stakes with
  | nil => simp [winner_payout]
  | cons a l ih =>
    simp only [List.map_cons, List.sum_cons]
    calc winner_payout T W a + (l.map (fun a => winner_payout T W a)).sum
        ≤ winner_payout T W a + winner_payout T W l.sum :=
          Nat.add_le_add_left ih _
    _ ≤ winner_payout T W (a + l.sum) := by
          unfold winner_payout
          rw [Nat.mul_add]
          exact div_add_div_le _ _ _

/-! ### Characterization lemmas for the instruction bodies -/

lemma cap_check_ok_iff (decimals pa net n : Nat) :
    cap_check decimals pa net = .ok n ↔
      100 * 10 ^ decimals ≤ U128_MAX ∧ pa + net ≤ 100 * 10 ^ decimals ∧
      n = pa + net := by
  unfold cap_check checkedMulU128 checkedAddU128
  by_cases h1 : 100 * 10 ^ decimals ≤ U128_MAX
  · by_cases h2 : pa + net ≤ U128_MAX
    · by_cases h3 : pa + net ≤ 100 * 10 ^ decimals
      · simp [h1, h2, h3, eq_comm]
      · simp [h1, h2, h3]
    · have h3 : ¬ pa + net ≤ 100 * 10 ^ decimals :=
        fun hle => h2 (hle.trans h1)
      simp [h1, h2, h3]
  · simp [h1]

lemma cap_check_exceeds (decimals pa net : Nat)
    (h1 : 100 * 10 ^ decimals ≤ U128_MAX) (h2 : pa + net ≤ U128_MAX)
    (h3 : 100 * 10 ^ decimals < pa + net) :
    cap_check decimals pa net = .error .BetExceedsLimit := by
  unfold cap_check checkedMulU128 checkedAddU128
  simp [h1, h2, Nat.not_le.mpr h3]

lemma payout_calc_ok (ty tn wp ua : Nat)
    (hadd : ty + tn ≤ U128_MAX) (hwp : 0 < wp)
    (hmul : (ty + tn) * ua ≤ U128_MAX)
    (hnarrow : (ty + tn) * ua / wp ≤ U64_MAX) :
    payout_calc ty tn wp ua = .ok (winner_payout (ty + tn) wp ua) := by
  unfold payout_calc checkedAddU128 checkedMulU128 u64TryFrom winner_payout
  simp [hadd, hwp, hmul, hnarrow]

lemma payout_calc_narrow_overflow (ty tn wp ua : Nat)
    (hadd : ty + tn ≤ U128_MAX) (hwp : 0 < wp)
    (hmul : (ty + tn) * ua ≤ U128_MAX)
    (hnarrow : U64_MAX < (ty + tn) * ua / wp) :
    payout_calc ty tn wp ua = .error .Overflow := by
  unfold payout_calc checkedAddU128 checkedMulU128 u64TryFrom
  simp [hadd, hwp, hmul, Nat.not_le.mpr hnarrow]

lemma payout_calc_ne_noPayout (ty tn wp ua : Nat) (hwp : 0 < wp) :
    payout_calc ty tn wp ua ≠ .error .NoPayout := by
  unfold payout_calc checkedAddU128 checkedMulU128 u64TryFrom
  by_cases h1 : ty + tn ≤ U128_MAX
  · by_cases h2 : (ty + tn) * ua ≤ U128_MAX
    · by_cases h3 : (ty + tn) * ua / wp ≤ U64_MAX
      · simp [h1, hwp, h2, h3]
      · simp [h1, hwp, h2, h3]
    · simp [h1, hwp, h2]
  · simp [h1]

lemma claim_winnings_winner (bk mk : Nat) (m : Market) (p : Position)
    (hown : p.owner = bk) (hres : m.resolved = true) (hcl : p.claimed = false)
    (hmkt : p.market = m.key) (hmint : mk = m.bet_mint)
    (hnv : m.winning_outcome ≠ Outcome.Void.toU8)
    (hout : p.outcome = m.winning_outcome) :
    claim_winnings bk mk m p =
      match payout_calc m.total_yes m.total_no (winningPool m) p.amount with
      | .error e => .error e
      | .ok q => .ok (m, { p with claimed := true }, q) := by
  unfold claim_winnings
  simp [hown, hres, hcl, hmkt, hmint, hnv, hout]

lemma place_bet_ok_dest (now : Int) (decimals bk mk : Nat) (m : Market)
    (p : Position) (o : Outcome) (a : Nat) (m' : Market) (p' : Position)
    (t : Nat)
    (h : place_bet now decimals bk mk m p o a = .ok (m', p', t)) :
    0 < a ∧ m.resolved = false ∧ now < m.cutoff_ts ∧ m.bet_mint = mk ∧
    p'.amount = (p.amount + net_of a) % 2 ^ 64 ∧
    p.amount + net_of a ≤ 100 * 10 ^ decimals ∧
    m'.resolved = false ∧ m'.winning_outcome = m.winning_outcome ∧
    t = a ∧
    ((o = Outcome.Yes ∧
        m' = { m with total_yes := satAddU64 m.total_yes (net_of a),
                      fees_accrued := satAddU64 m.fees_accrued (fee_of a) }) ∨
     (o = Outcome.No ∧
        m' = { m with total_no := satAddU64 m.total_no (net_of a),
                      fees_accrued := satAddU64 m.fees_accrued (fee_of a) })) := by
  unfold place_bet at h
  by_cases h1 : 0 < a
  case neg => simp [h1] at h
  rw [if_pos h1] at h
  by_cases h2 : m.resolved
  case pos => simp [h2] at h
  rw [if_neg h2] at h
  by_cases h3 : now < m.cutoff_ts
  case neg => simp [h3] at h
  rw [if_pos h3] at h
  by_cases h4 : m.bet_mint = mk
  case neg => simp [h4] at h
  rw [if_pos h4] at h
  by_cases h5 : p.amount = 0 ∨ p.outcome = o.toU8
  case neg => simp [h5] at h
  rw [if_pos h5] at h
  cases hcap : cap_check decimals p.amount (net_of a) with
  | error e => rw [hcap] at h; simp at h
  | ok new_total =>
    rw [hcap] at h
    obtain ⟨-, hle, hnt⟩ := (cap_check_ok_iff _ _ _ _).mp hcap
    cases o with
    | Unset => simp at h
    | Void => simp at h
    | Yes =>
      simp only [Except.ok.injEq, Prod.mk.injEq] at h
      obtain ⟨hm, hp, ht⟩ := h
      subst hm hp ht hnt
      refine ⟨h1, by simpa using h2, h3, h4, rfl, hle, by simpa using h2,
              rfl, rfl, Or.inl ⟨rfl, rfl⟩⟩
    | No =>
      simp only [Except.ok.injEq, Prod.mk.injEq] at h
      obtain ⟨hm, hp, ht⟩ := h
      subst hm hp ht hnt
      refine ⟨h1, by simpa using h2, h3, h4, rfl, hle, by simpa using h2,
              rfl, rfl, Or.inr ⟨rfl, rfl⟩⟩

lemma create_market_ok_dest (caller key mintKey vaultKey vaultAuthKey : Nat)
    (cutoff : Int) (m : Market)
    (h : create_market caller key mintKey vaultKey vaultAuthKey cutoff =
          .ok m) :
    m.resolved = false := by
  unfold create_market at h
  by_cases hc : caller = OWNER
  · rw [if_pos hc] at h
    simp only [Except.ok.injEq] at h
    subst h
    rfl
  · simp [hc] at h

lemma update_cutoff_ok_dest (caller : Nat) (now : Int) (m : Market) (t : Int)
    (m' : Market) (h : update_cutoff caller now m t = .ok m') :
    m'.resolved = false := by
  unfold update_cutoff at h
  by_cases hc : caller = OWNER
  case neg => simp [hc] at h
  rw [if_pos hc] at h
  by_cases hr : m.resolved
  case pos => simp [hr] at h
  rw [if_neg hr] at h
  by_cases h3 : now < m.cutoff_ts
  case neg => simp [h3] at h
  rw [if_pos h3] at h
  by_cases h4 : t > now
  case neg => simp [h4] at h
  rw [if_pos h4] at h
  simp only [Except.ok.injEq] at h
  subst h
  simpa using hr

lemma resolve_market_ok_dest (caller : Nat) (now : Int) (m : Market)
    (o : Outcome) (m' : Market) (h : resolve_market caller now m o = .ok m') :
    m'.resolved = true ∧ m'.total_yes = m.total_yes ∧
    m'.total_no = m.total_no ∧
    (m'.winning_outcome = Outcome.Void.toU8 ∨
     (m'.winning_outcome = o.toU8 ∧ (o = Outcome.Yes ∨ o = Outcome.No) ∧
      m.total_yes ≠ 0 ∧ m.total_no ≠ 0)) := by
  unfold resolve_market at h
  by_cases hc : caller = OWNER
  case neg => simp [hc] at h
  rw [if_pos hc] at h
  by_cases hr : m.resolved
  case pos => simp [hr] at h
  rw [if_neg hr] at h
  by_cases h3 : now ≥ m.cutoff_ts
  case neg => simp [h3] at h
  rw [if_pos h3] at h
  by_cases h4 : m.total_yes = 0 ∨ m.total_no = 0
  · rw [if_pos h4] at h
    simp only [Except.ok.injEq] at h
    subst h
    exact ⟨rfl, rfl, rfl, Or.inl rfl⟩
  · rw [if_neg h4] at h
    push_neg at h4
    cases o with
    | Unset => simp at h
    | Void => simp at h
    | Yes =>
      simp only [Except.ok.injEq] at h
      subst h
      exact ⟨rfl, rfl, rfl, Or.inr ⟨rfl, Or.inl rfl, h4.1, h4.2⟩⟩
    | No =>
      simp only [Except.ok.injEq] at h
      subst h
      exact ⟨rfl, rfl, rfl, Or.inr ⟨rfl, Or.inr rfl, h4.1, h4.2⟩⟩

lemma claim_winnings_ok_dest (bk mk : Nat) (m : Market) (p : Position)
    (m' : Market) (p' : Position) (t : Nat)
    (h : claim_winnings bk mk m p = .ok (m', p', t)) : m' = m := by
  unfold claim_winnings at h
  by_cases h1 : p.owner = bk
  case neg => simp [h1] at h
  rw [if_pos h1] at h
  by_cases h2 : m.resolved
  case neg => simp [h2] at h
  rw [if_pos h2] at h
  by_cases h3 : p.claimed
  case pos => simp [h3] at h
  rw [if_neg h3] at h
  by_cases h4 : p.market = m.key
  case neg => simp [h4] at h
  rw [if_pos h4] at h
  by_cases h5 : mk = m.bet_mint
  case neg => simp [h5] at h
  rw [if_pos h5] at h
  cases hpay : (if m.winning_outcome = Outcome.Void.toU8 then
      if 0 < p.amount then (.ok p.amount : Except ErrorCode Nat)
      else .error .NoPayout
    else if p.outcome = m.winning_outcome then
      payout_calc m.total_yes m.total_no (winningPool m) p.amount
    else .error .NoPayout) with
  | error e => rw [hpay] at h; simp at h
  | ok q =>
    rw [hpay] at h
    simp only [Except.ok.injEq, Prod.mk.injEq] at h
    exact h.1.symm

lemma sweep_fees_ok_dest (caller : Nat) (m : Market) (m' : Market) (amt : Nat)
    (h : sweep_fees caller m = .ok (m', amt)) :
    m' = { m with fees_accrued := 0 } := by
  unfold sweep_fees at h
  by_cases h1 : caller = OWNER
  case neg => simp [h1] at h
  rw [if_pos h1] at h
  by_cases h2 : 0 < m.fees_accrued
  case neg => simp [h2] at h
  rw [if_pos h2] at h
  simp only [Except.ok.injEq, Prod.mk.injEq] at h
  exact h.1.symm

lemma reachable_poolInv (m : Market) (h : Reachable m) : PoolInv m := by
  induction h with
  | create caller key mintKey vaultKey vaultAuthKey cutoff m hm =>
    have hr := create_market_ok_dest caller key mintKey vaultKey vaultAuthKey
      cutoff m hm
    exact ⟨fun hres => absurd hres (by simp [hr]),
           fun hres => absurd hres (by simp [hr])⟩
  | update caller now m t m' _ hm ih =>
    have hr := update_cutoff_ok_dest caller now m t m' hm
    exact ⟨fun hres => absurd hres (by simp [hr]),
           fun hres => absurd hres (by simp [hr])⟩
  | bet now decimals bk mk m p o a m' p' t _ hm ih =>
    have hr := (place_bet_ok_dest now decimals bk mk m p o a m' p' t hm).2.2.2.2.2.2.1
    exact ⟨fun hres => absurd hres (by simp [hr]),
           fun hres => absurd hres (by simp [hr])⟩
  | resolve caller now m o m' _ hm ih =>
    obtain ⟨hres, hty, htn, hcase⟩ := resolve_market_ok_dest caller now m o m' hm
    rcases hcase with hv | ⟨hw, ho, hy, hn⟩
    · constructor
      · intro _ hyes
        rw [hv] at hyes
        exact absurd hyes (by simp [Outcome.toU8])
      · intro _ hno
        rw [hv] at hno
        exact absurd hno (by simp [Outcome.toU8])
    · constructor
      · intro _ _
        rw [hty]
        exact Nat.pos_of_ne_zero hy
      · intro _ _
        rw [htn]
        exact Nat.pos_of_ne_zero hn
  | claim bk mk m p m' p' t _ hm ih =>
    rw [claim_winnings_ok_dest bk mk m p m' p' t hm]
    exact ih
  | sweep caller m m' amt _ hm ih =>
    rw [sweep_fees_ok_dest caller m m' amt hm]
    exact ⟨fun h1 h2 => ih.1 h1 h2, fun h1 h2 => ih.2 h1 h2⟩

lemma place_bet_cap_exceeds (now : Int) (decimals bk mk : Nat) (m : Market)
    (p : Position) (o : Outcome) (amount : Nat)
    (h1 : 0 < amount) (h2 : m.resolved = false) (h3 : now < m.cutoff_ts)
    (h4 : m.bet_mint = mk) (h5 : p.amount = 0 ∨ p.outcome = o.toU8)
    (hc1 : 100 * 10 ^ decimals ≤ U128_MAX)
    (hc2 : p.amount + net_of amount ≤ U128_MAX)
    (hc3 : 100 * 10 ^ decimals < p.amount + net_of amount) :
    place_bet now decimals bk mk m p o amount = .error .BetExceedsLimit := by
  unfold place_bet
  rw [if_pos h1, if_neg (by simp [h2]), if_pos h3, if_pos h4, if_pos h5,
      cap_check_exceeds decimals p.amount (net_of amount) hc1 hc2 hc3]

/-! ### Claim theorems -/

/-- C1: on a market resolved to Yes or No, a claim by the position's owner
whose outcome matches the winning outcome transfers exactly
`floor((pool_yes + pool_no) * net_amount / winning_pool)`, computed in
widened (`u128`) arithmetic; the hypotheses are the instruction's own success
conditions (u64-ranged pools and a result that narrows back to `u64`). -/
theorem claim_winner_payout_exact (bk mk : Nat) (m : Market) (p : Position)
    (hown : p.owner = bk) (hres : m.resolved = true) (hcl : p.claimed = false)
    (hmkt : p.market = m.key) (hmint : mk = m.bet_mint)
    (hwin : m.winning_outcome = Outcome.Yes.toU8 ∨
            m.winning_outcome = Outcome.No.toU8)
    (hout : p.outcome = m.winning_outcome)
    (hadd : m.total_yes + m.total_no ≤ U128_MAX)
    (hwp : 0 < winningPool m)
    (hmul : (m.total_yes + m.total_no) * p.amount ≤ U128_MAX)
    (hnarrow :
      (m.total_yes + m.total_no) * p.amount / winningPool m ≤ U64_MAX) :
    claim_winnings bk mk m p =
      .ok (m, { p with claimed := true },
           winner_payout (m.total_yes + m.total_no) (winningPool m)
             p.amount) := by
  have hnv : m.winning_outcome ≠ Outcome.Void.toU8 := by
    rcases hwin with h | h <;> simp [h, Outcome.toU8]
  rw [claim_winnings_winner bk mk m p hown hres hcl hmkt hmint hnv hout,
      payout_calc_ok m.total_yes m.total_no (winningPool m) p.amount hadd hwp
        hmul hnarrow]

/-- Witness for C1: the spec's scenario — `pool_yes = 700`, `pool_no = 300`,
resolved Yes, a 140-unit Yes position receives exactly 200. -/
theorem claim_winner_payout_exact_witness :
    claim_winnings 11 7 mC1 pC1 =
      .ok (mC1, { pC1 with claimed := true }, 200) := by
  have h := claim_winner_payout_exact 11 7 mC1 pC1 rfl rfl rfl rfl rfl
    (Or.inl rfl) rfl (by decide) (by decide) (by decide) (by decide)
  exact h

/-- C2: for any way of splitting the winning pool into per-position net
stakes, the payouts `floor(total_pool * stake / winning_pool)` summed over
all winning positions never exceed `pool_yes + pool_no`. -/
theorem claim_no_overspend (m : Market) (stakes : List Nat)
    (_hres : m.resolved = true)
    (_hwin : m.winning_outcome = Outcome.Yes.toU8 ∨
             m.winning_outcome = Outcome.No.toU8)
    (hsum : stakes.sum = winningPool m) (hpos : 0 < winningPool m) :
    (stakes.map (fun a =>
        winner_payout (m.total_yes + m.total_no) (winningPool m) a)).sum
      ≤ m.total_yes + m.total_no := by
  have h1 := sum_payout_le (m.total_yes + m.total_no) (winningPool m) stakes
  rw [hsum] at h1
  refine h1.trans ?_
  unfold winner_payout
  rw [Nat.mul_div_cancel _ hpos]

/-- Witness for C2: stakes 140 + 560 = 700 on the winning side of the
700/300 market distribute at most 1000. -/
theorem claim_no_overspend_witness :
    (([140, 560] : List Nat).map (fun a =>
        winner_payout (mC1.total_yes + mC1.total_no) (winningPool mC1) a)).sum
      ≤ mC1.total_yes + mC1.total_no :=
  claim_no_overspend mC1 [140, 560] rfl (Or.inl rfl) (by decide) (by decide)

/-- C3 counterexample: `place_bet` accepts the deposit
`61489146933895605` (with `decimals = 15`) without any error, yet the fee it
charges, `floor(saturate_u64(gross * 300) / 10000) = 1844674407370955`, is
not `floor(gross * 300 / 10000) = 1844674408016868`: the `saturating_mul` in
the fee computation breaks exactness within the representable `u64` range. -/
theorem fee_formula_counterexample :
    place_bet 0 15 11 7 mOpen pFresh Outcome.Yes 61489146933895605 =
      .ok ({ mOpen with total_yes := 59644472526524650,
                        fees_accrued := 1844674407370955 },
           { owner := 11, market := 1, outcome := 1, claimed := false,
             amount := 59644472526524650 },
           61489146933895605) ∧
    fee_of 61489146933895605 ≠ 61489146933895605 * FEE_BPS / BPS_DENOM :=
  ⟨rfl, by decide⟩

/-- C3 (amended): `gross = fee + net` holds exactly for every deposit
(first conjunct, unconditional); the fee is always
`floor(min(gross * 300, u64::MAX) / 10000)` — the `saturating_mul` form
(second conjunct); and `fee = floor(gross * 300 / 10000)` holds exactly for
every gross amount with `gross * 300 ≤ u64::MAX`, i.e.
`gross ≤ 61489146912365172` (third conjunct). -/
theorem fee_split_amended (amount : Nat) :
    fee_of amount + net_of amount = amount ∧
    fee_of amount = min (amount * FEE_BPS) U64_MAX / BPS_DENOM ∧
    (amount * FEE_BPS ≤ U64_MAX →
      fee_of amount = amount * FEE_BPS / BPS_DENOM) :=
  ⟨fee_add_net amount, rfl, fee_of_eq_exact amount⟩

/-- Witness for the amended C3: the spec's scenario — a 1000-unit deposit
splits into fee 30 and net 970 — together with fee + net = gross at the
counterexample's saturated deposit. -/
theorem fee_split_amended_witness :
    (fee_of 1000 + net_of 1000 = 1000 ∧ fee_of 1000 = 30) ∧
    fee_of 61489146933895605 + net_of 61489146933895605 =
      61489146933895605 := by
  have h := fee_split_amended 1000
  have h2 := fee_split_amended 61489146933895605
  exact ⟨⟨h.1, (h.2.2 (by decide)).trans (by decide)⟩, h2.1⟩

/-- C4 counterexample: with the yes-pool already at `u64::MAX`, a further
1000-unit-net bet succeeds with no error while the pool addition silently
saturates (`saturating_add`): the stored pool is not the exact sum. -/
theorem silent_saturation_counterexample :
    place_bet 0 9 11 7 mFull pFresh Outcome.Yes 10000 =
      .ok ({ mFull with total_yes := U64_MAX, fees_accrued := 300 },
           { owner := 11, market := 1, outcome := 1, claimed := false,
             amount := 9700 },
           10000) ∧
    satAddU64 mFull.total_yes (net_of 10000) ≠
      mFull.total_yes + net_of 10000 :=
  ⟨rfl, by decide⟩

/-- C4 (amended): the cumulative-cap check and the payout computation use
checked wide arithmetic and hard-fail (`BetExceedsLimit`, `Overflow`), but
the fee multiplication is a `u64` `saturating_mul` (first conjunct shows the
`min` in its definition), and the pool/fee accumulations saturate rather
than erroring (see the counterexample). -/
theorem checked_and_saturating_arithmetic (m : Market) (p : Position)
    (bk mk : Nat) (now : Int) (decimals : Nat) (o : Outcome) (amount : Nat) :
    fee_of amount = min (amount * FEE_BPS) U64_MAX / BPS_DENOM ∧
    (0 < amount → m.resolved = false → now < m.cutoff_ts → m.bet_mint = mk →
      (p.amount = 0 ∨ p.outcome = o.toU8) →
      100 * 10 ^ decimals ≤ U128_MAX → p.amount + net_of amount ≤ U128_MAX →
      100 * 10 ^ decimals < p.amount + net_of amount →
      place_bet now decimals bk mk m p o amount =
        .error .BetExceedsLimit) ∧
    (p.owner = bk → m.resolved = true → p.claimed = false →
      p.market = m.key → mk = m.bet_mint →
      (m.winning_outcome = Outcome.Yes.toU8 ∨
       m.winning_outcome = Outcome.No.toU8) →
      p.outcome = m.winning_outcome →
      m.total_yes + m.total_no ≤ U128_MAX → 0 < winningPool m →
      (m.total_yes + m.total_no) * p.amount ≤ U128_MAX →
      U64_MAX < (m.total_yes + m.total_no) * p.amount / winningPool m →
      claim_winnings bk mk m p = .error .Overflow) := by
  refine ⟨rfl, ?_, ?_⟩
  · intro h1 h2 h3 h4 h5 hc1 hc2 hc3
    exact place_bet_cap_exceeds now decimals bk mk m p o amount h1 h2 h3 h4
      h5 hc1 hc2 hc3
  · intro hown hres hcl hmkt hmint hwin hout hadd hwp hmul hnarrow
    have hnv : m.winning_outcome ≠ Outcome.Void.toU8 := by
      rcases hwin with h | h <;> simp [h, Outcome.toU8]
    rw [claim_winnings_winner bk mk m p hown hres hcl hmkt hmint hnv hout,
        payout_calc_narrow_overflow m.total_yes m.total_no (winningPool m)
          p.amount hadd hwp hmul hnarrow]

/-- Witness for the amended C4: a bet past the cap hard-fails with
`BetExceedsLimit`, and a winner payout that does not fit `u64` hard-fails
with `Overflow`. -/
theorem checked_and_saturating_arithmetic_witness :
    place_bet 0 2 11 7 mOpen pFresh Outcome.Yes 20000 =
      .error .BetExceedsLimit ∧
    claim_winnings 11 7 mHuge pHuge = .error .Overflow := by
  refine ⟨(checked_and_saturating_arithmetic mOpen pFresh 11 7 0 2
      Outcome.Yes 20000).2.1 (by decide) rfl (by decide) rfl (Or.inl rfl)
      (by decide) (by decide) (by decide),
    (checked_and_saturating_arithmetic mHuge pHuge 11 7 0 0 Outcome.Yes
      0).2.2 rfl rfl rfl rfl rfl (Or.inl rfl) rfl (by decide) (by decide)
      (by decide) (by decide)⟩

/-- C5: a successful `place_bet` always leaves the position's cumulative net
amount at or below `100 * 10^decimals`, and a deposit whose net would push
the cumulative total past the cap (checked in `u128`) is rejected with
`BetExceedsLimit` — an erroring instruction leaves every account unchanged
(Anchor discards all mutations of a failed instruction). -/
theorem bet_cap_enforced (now : Int) (decimals bk mk : Nat) (m : Market)
    (p : Position) (o : Outcome) (amount : Nat) :
    (∀ m' p' t,
      place_bet now decimals bk mk m p o amount = .ok (m', p', t) →
      p'.amount ≤ 100 * 10 ^ decimals) ∧
    (0 < amount → m.resolved = false → now < m.cutoff_ts → m.bet_mint = mk →
      (p.amount = 0 ∨ p.outcome = o.toU8) →
      100 * 10 ^ decimals ≤ U128_MAX → p.amount + net_of amount ≤ U128_MAX →
      100 * 10 ^ decimals < p.amount + net_of amount →
      place_bet now decimals bk mk m p o amount =
        .error .BetExceedsLimit) := by
  constructor
  · intro m' p' t h
    obtain ⟨-, -, -, -, hp, hle, -⟩ :=
      place_bet_ok_dest now decimals bk mk m p o amount m' p' t h
    rw [hp]
    exact le_trans (Nat.mod_le _ _) hle
  · intro h1 h2 h3 h4 h5 hc1 hc2 hc3
    exact place_bet_cap_exceeds now decimals bk mk m p o amount h1 h2 h3 h4
      h5 hc1 hc2 hc3

/-- Witness for C5: the witness bet stays below the `100 * 10^6` cap, and a
20000-unit bet against a `100 * 10^2` cap is rejected. -/
theorem bet_cap_enforced_witness :
    pWitYes.amount ≤ 100 * 10 ^ 6 ∧
    place_bet 0 2 11 7 mOpen pFresh Outcome.No 20000 =
      .error .BetExceedsLimit := by
  refine ⟨(bet_cap_enforced 0 6 11 7 mOpen pFresh Outcome.Yes 1000).1
      mWitYes pWitYes 1000 rfl,
    (bet_cap_enforced 0 2 11 7 mOpen pFresh Outcome.No 20000).2 (by decide)
      rfl (by decide) rfl (Or.inl rfl) (by decide) (by decide) (by decide)⟩

/-- C6: an authorized resolve after the deadline on an unresolved market
forces `Void` whenever either pool is zero — succeeding for any proposed
outcome — and otherwise stores the proposed outcome, which must be Yes or
No. -/
theorem resolve_outcome_rule (caller : Nat) (now : Int) (m : Market)
    (o : Outcome) (hc : caller = OWNER) (hr : m.resolved = false)
    (ht : now ≥ m.cutoff_ts) :
    ((m.total_yes = 0 ∨ m.total_no = 0) →
      resolve_market caller now m o =
        .ok { m with resolved := true,
                     winning_outcome := Outcome.Void.toU8 }) ∧
    (m.total_yes ≠ 0 → m.total_no ≠ 0 →
      (o = Outcome.Yes ∨ o = Outcome.No) →
      resolve_market caller now m o =
        .ok { m with resolved := true, winning_outcome := o.toU8 }) := by
  constructor
  · intro hz
    unfold resolve_market
    rw [if_pos hc, if_neg (by simp [hr]), if_pos ht, if_pos hz]
  · intro hy hn ho
    unfold resolve_market
    rw [if_pos hc, if_neg (by simp [hr]), if_pos ht,
        if_neg (not_or.mpr ⟨hy, hn⟩)]
    rcases ho with h | h <;> subst h <;> rfl

/-- Witness for C6: a market with an empty no-pool resolves to Void even
when the caller proposes the otherwise-invalid outcome `Unset`. -/
theorem resolve_outcome_rule_witness :
    resolve_market OWNER 100 mOneSided Outcome.Unset =
      .ok { mOneSided with resolved := true,
                           winning_outcome := Outcome.Void.toU8 } :=
  (resolve_outcome_rule OWNER 100 mOneSided Outcome.Unset rfl rfl
    (by decide)).1 (Or.inr rfl)

/-- C7: an authorized resolve past the deadline on an unresolved market with
both pools nonzero and a proposed outcome of `Unset` or `Void` fails with
`InvalidOutcomeArg`; since a failed instruction's account mutations are all
discarded, the market is left entirely unchanged (`resolved` stays false,
`winning_outcome` stays as it was). -/
theorem resolve_invalid_outcome_rejected (caller : Nat) (now : Int)
    (m : Market) (o : Outcome) (hc : caller = OWNER)
    (hr : m.resolved = false) (ht : now ≥ m.cutoff_ts)
    (hy : m.total_yes ≠ 0) (hn : m.total_no ≠ 0)
    (ho : o = Outcome.Unset ∨ o = Outcome.Void) :
    resolve_market caller now m o = .error .InvalidOutcomeArg := by
  unfold resolve_market
  rw [if_pos hc, if_neg (by simp [hr]), if_pos ht,
      if_neg (not_or.mpr ⟨hy, hn⟩)]
  rcases ho with h | h <;> subst h <;> rfl

/-- Witness for C7: proposing `Void` on a two-sided market is rejected. -/
theorem resolve_invalid_outcome_rejected_witness :
    resolve_market OWNER 100 mBoth Outcome.Void =
      .error .InvalidOutcomeArg :=
  resolve_invalid_outcome_rejected OWNER 100 mBoth Outcome.Void rfl rfl
    (by decide) (by decide) (by decide) (Or.inr rfl)

/-- C8: on a market resolved Void, a first claim by the owner of an
unclaimed position with positive net amount refunds exactly that recorded
net amount (no further fee deduction) and marks the position claimed (the
account is then closed); a second claim on the resulting position fails with
`AlreadyClaimed` and transfers nothing. -/
theorem claim_void_refund_once (bk mk : Nat) (m : Market) (p : Position)
    (hown : p.owner = bk) (hres : m.resolved = true) (hcl : p.claimed = false)
    (hmkt : p.market = m.key) (hmint : mk = m.bet_mint)
    (hv : m.winning_outcome = Outcome.Void.toU8) (hamt : 0 < p.amount) :
    claim_winnings bk mk m p =
      .ok (m, { p with claimed := true }, p.amount) ∧
    claim_winnings bk mk m { p with claimed := true } =
      .error .AlreadyClaimed := by
  constructor
  · unfold claim_winnings
    simp [hown, hres, hcl, hmkt, hmint, hv, hamt]
  · unfold claim_winnings
    simp [hown, hres, hmkt, hmint]

/-- Witness for C8: the spec's scenario — a 500-unit position on a voided
market is refunded exactly 500 and cannot be claimed twice. -/
theorem claim_void_refund_once_witness :
    claim_winnings 11 7 mVoid pVoid =
      .ok (mVoid, { pVoid with claimed := true }, 500) ∧
    claim_winnings 11 7 mVoid { pVoid with claimed := true } =
      .error .AlreadyClaimed := by
  have h := claim_void_refund_once 11 7 mVoid pVoid rfl rfl rfl rfl rfl rfl
    (by decide)
  exact ⟨h.1, h.2⟩

/-- C9 counterexample: a no-op update (new deadline 20 equals the existing
deadline 20, current time 10) is accepted — `update_cutoff` returns success
and rewrites the same value, rather than rejecting the call. -/
theorem noop_cutoff_accepted_counterexample :
    update_cutoff OWNER 10 mCut20 20 = .ok mCut20 := rfl

/-- C9 (amended): an update-deadline call succeeds exactly when the caller
is the authority, the market is unresolved, the current time is still before
the existing deadline, and the new deadline is strictly in the future; a
no-op call (new deadline equal to the existing one) satisfying these is
accepted, not rejected. -/
theorem update_cutoff_characterization (caller : Nat) (now : Int)
    (m : Market) (t : Int) :
    update_cutoff caller now m t = .ok { m with cutoff_ts := t } ↔
      caller = OWNER ∧ m.resolved = false ∧ now < m.cutoff_ts ∧ now < t := by
  unfold update_cutoff
  by_cases h1 : caller = OWNER
  · by_cases h2 : m.resolved
    · simp [h1, h2]
    · by_cases h3 : now < m.cutoff_ts
      · by_cases h4 : t > now
        · simp [h1, h2, h3, h4, gt_iff_lt] at *
        · simp [h1, h2, h3, h4, gt_iff_lt] at *
      · simp [h1, h2, h3]
  · simp [h1]

/-- Witness for the amended C9: an in-time, future-deadline update by the
authority succeeds. -/
theorem update_cutoff_characterization_witness :
    update_cutoff OWNER 10 mOpen 50 = .ok { mOpen with cutoff_ts := 50 } :=
  (update_cutoff_characterization OWNER 10 mOpen 50).mpr
    ⟨rfl, rfl, by decide, by decide⟩

/-- C10: in every market reachable by the program's operations, resolution
to Yes (resp. No) implies the corresponding pool is positive, so the
`winning_pool > 0` guard of `claim_winnings` never fails there: for a
winning position passing the ownership/state checks, `claim_winnings` never
returns `NoPayout`. -/
theorem resolved_winner_pool_positive (m : Market) (h : Reachable m) :
    (m.resolved = true →
      (m.winning_outcome = Outcome.Yes.toU8 ∨
       m.winning_outcome = Outcome.No.toU8) →
      0 < winningPool m) ∧
    (∀ bk mk p, m.resolved = true →
      (m.winning_outcome = Outcome.Yes.toU8 ∨
       m.winning_outcome = Outcome.No.toU8) →
      p.owner = bk → p.claimed = false → p.market = m.key →
      mk = m.bet_mint → p.outcome = m.winning_outcome →
      claim_winnings bk mk m p ≠ .error .NoPayout) := by
  have hinv := reachable_poolInv m h
  have hpool : m.resolved = true →
      (m.winning_outcome = Outcome.Yes.toU8 ∨
       m.winning_outcome = Outcome.No.toU8) →
      0 < winningPool m := by
    intro hres hwin
    unfold winningPool
    rcases hwin with hw | hw
    · rw [if_pos hw]
      exact hinv.1 hres hw
    · rw [if_neg (by simp [hw, Outcome.toU8])]
      exact hinv.2 hres hw
  refine ⟨hpool, ?_⟩
  intro bk mk p hres hwin hown hcl hmkt hmint hout
  have hnv : m.winning_outcome ≠ Outcome.Void.toU8 := by
    rcases hwin with h' | h' <;> simp [h', Outcome.toU8]
  rw [claim_winnings_winner bk mk m p hown hres hcl hmkt hmint hnv hout]
  have hwp := hpool hres hwin
  cases hpc : payout_calc m.total_yes m.total_no (winningPool m) p.amount with
  | error e =>
    have he : e ≠ .NoPayout :=
      fun heq => payout_calc_ne_noPayout m.total_yes m.total_no
        (winningPool m) p.amount hwp (heq ▸ hpc)
    simp [hpc, he]
  | ok q => simp [hpc]

/-- Witness for C10: a market built by create → Yes bet → No bet → resolve
Yes is reachable and its winning pool is positive. -/
theorem resolved_winner_pool_positive_witness : 0 < winningPool mWitRes := by
  have hr : Reachable mWitRes :=
    Reachable.resolve 0 100 mWitNo Outcome.Yes mWitRes
      (Reachable.bet 0 6 12 7 mWitYes pFresh Outcome.No 1000 mWitNo pWitNo
        1000
        (Reachable.bet 0 6 11 7 mOpen pFresh Outcome.Yes 1000 mWitYes
          pWitYes 1000
          (Reachable.create 0 1 7 2 3 100 mOpen rfl) rfl) rfl) rfl
  exact (resolved_winner_pool_positive mWitRes hr).1 rfl (Or.inl rfl)

end YesnoBets
